import Mathlib

/-!
Verification development for the tool-calling conversation engine of a
JavaScript model CLI.  The definitions below are shallow embeddings of the
source files: `src/client.js` (the `ModelClient.chat` tool-dispatch loop,
`parseToolArguments`, `repairJsonString` and its helpers), the `ChatSession`
class, the streaming tool-call delta merger of the OpenAI provider, and
`buildToolIdentifier` from `src/mcp/runtime.js`.  JavaScript strings are
modelled as Lean `String`/`List Char`; fallible code returns `Except`/`Option`.
-/

namespace DSCli

/-! ## Characters and whitespace (helpers of `repairJsonString`) -/

/-- Source `isWhitespace` in `client.js`: space, tab, newline, carriage return. -/
def isWhitespace (c : Char) : Bool :=
  c = ' ' || c = '\t' || c = '\n' || c = '\r'

/-- Source `isDigit` in `client.js`: `'0' <= c <= '9'`. -/
def isDigit (c : Char) : Bool :=
  '0' ≤ c && c ≤ '9'

/-- Source `findNextNonWhitespace`: first non-whitespace character of the
suffix, if any.  The JS function walks an index through the string; here the
suffix itself is passed. -/
def findNextNonWhitespace : List Char → Option Char
  | [] => none
  | c :: rest => if isWhitespace c then findNextNonWhitespace rest else some c

/-- Source `isValidJsonEscape`: characters allowed after a backslash in a JSON
string (`"`, `\`, `/`, `b`, `f`, `n`, `r`, `t`, `u`). -/
def isValidJsonEscape (c : Char) : Bool :=
  c = '"' || c = '\\' || c = '/' || c = 'b' || c = 'f' || c = 'n' || c = 'r' || c = 't' || c = 'u'

/-! ## Repair-machine context stack -/

/-- One frame of the `contextStack` of `repairJsonString`: the JS code pushes
`{type:'object', expectingKey}` or `{type:'array'}`. -/
inductive RFrame where
  | obj (expectingKey : Bool)
  | arr
deriving DecidableEq, Repr

/-- Container kinds as used by `looksLikeValueTerminator` (`'object'` /
`'array'`; `none` models JS `null`). -/
inductive CKind where
  | object
  | array
deriving DecidableEq, Repr

/-- The `type` field of a stack frame. -/
def RFrame.ctype : RFrame → CKind
  | .obj _ => .object
  | .arr => .array

/-- The container type seen by the quote handler: the top frame's type, or
`null` when the stack is empty (stack head = JS array's last element). -/
def containerTypeOf : List RFrame → Option CKind
  | [] => none
  | f :: _ => some f.ctype

/-- Source `isExpectingKey`: true iff the stack is non-empty and the top frame
is an object expecting a key. -/
def isExpectingKey : List RFrame → Bool
  | RFrame.obj k :: _ => k
  | _ => false

/-- Source `updateObjectKeyState`: if the top frame is an object, set its
`expectingKey` field; otherwise do nothing. -/
def updateObjectKeyState : List RFrame → Bool → List RFrame
  | RFrame.obj _ :: rest, e => RFrame.obj e :: rest
  | s, _ => s

/-- Source `looksLikeValueTerminator(source, index, containerType)`.  The JS
function inspects `source` from `index + 1`; here `rest` is that suffix.  A
quote inside a string is accepted as a terminator only when the following
non-whitespace characters look like a legal JSON continuation. -/
def looksLikeValueTerminator (rest : List Char) (container : Option CKind) : Bool :=
  match rest.dropWhile isWhitespace with
  | [] => true
  | next :: after =>
    if next = '\x7d' || next = ']' then
      match findNextNonWhitespace after with
      | none => true
      | some following => following = ',' || following = '\x7d' || following = ']'
    else if next = ',' then
      match findNextNonWhitespace after with
      | none => true
      | some token =>
        match container with
        | some CKind.object => token = '"' || token = '\x7d'
        | _ =>
          token = '"' || token = '\x7b' || token = '[' || token = '\x7d' || token = ']' ||
            token = '-' || token = 't' || token = 'f' || token = 'n' || isDigit token
    else false

/-! ## The repair state machine -/

/-- The mutable locals of `repairJsonString`'s scan loop. -/
structure RState where
  inString : Bool
  escaping : Bool
  stringIsKey : Bool
  stack : List RFrame
deriving DecidableEq, Repr

/-- Lower-case hex digit, as produced by JS `Number.prototype.toString(16)`. -/
def hexDigit (n : Nat) : Char :=
  if n < 10 then Char.ofNat (48 + n) else Char.ofNat (87 + n)

/-- Four lower-case hex digits, as produced by
`code.toString(16).padStart(4, '0')` for codes below `0x10000`. -/
def hex4 (n : Nat) : List Char :=
  [hexDigit (n / 4096 % 16), hexDigit (n / 256 % 16), hexDigit (n / 16 % 16), hexDigit (n % 16)]

/-- Output emitted for character `c` when the scanner is in escaping state
(the branch of `repairJsonString` guarded by `if (escaping)`). -/
def escapeOut (c : Char) : List Char :=
  if isValidJsonEscape c then ['\\', c]
  else if c = '\n' then ['\\', '\\', 'n']
  else if c = '\r' then ['\\', '\\', 'r']
  else ['\\', '\\', c]

/-- The character scan loop of `repairJsonString`, one constructor branch per
branch of the JS `for` loop; at end of input the JS code appends `\\` if an
escape is still open and `"` if a string is still open. -/
def repairLoop : List Char → RState → List Char
  | [], st =>
    (if st.escaping then ['\\', '\\'] else []) ++ (if st.inString then ['"'] else [])
  | c :: rest, st =>
    if st.inString then
      if st.escaping then
        escapeOut c ++ repairLoop rest { st with escaping := false }
      else if c = '\\' then
        repairLoop rest { st with escaping := true }
      else if c = '"' then
        if st.stringIsKey || looksLikeValueTerminator rest (containerTypeOf st.stack) then
          '"' :: repairLoop rest
            { st with inString := false, stringIsKey := false,
                      stack := updateObjectKeyState st.stack false }
        else
          '\\' :: '"' :: repairLoop rest st
      else if c = '\n' then
        '\\' :: 'n' :: repairLoop rest st
      else if c = '\r' then
        '\\' :: 'r' :: repairLoop rest st
      else if c.toNat ≤ 0x1f then
        ('\\' :: 'u' :: hex4 c.toNat) ++ repairLoop rest st
      else
        c :: repairLoop rest st
    else
      if c = '"' then
        '"' :: repairLoop rest
          { st with inString := true, escaping := false, stringIsKey := isExpectingKey st.stack }
      else if c = '\x7b' then
        c :: repairLoop rest { st with stack := RFrame.obj true :: st.stack }
      else if c = '[' then
        c :: repairLoop rest { st with stack := RFrame.arr :: st.stack }
      else if c = '\x7d' || c = ']' then
        c :: repairLoop rest { st with stack := st.stack.tail }
      else if c = ':' then
        c :: repairLoop rest { st with stack := updateObjectKeyState st.stack false }
      else if c = ',' then
        c :: repairLoop rest { st with stack := updateObjectKeyState st.stack true }
      else
        c :: repairLoop rest st

/-- The initial scanner state: not in a string, not escaping, empty stack. -/
def initRState : RState := ⟨false, false, false, []⟩

/-- Source `repairJsonString`: returns a falsy input unchanged, otherwise runs
the scan loop over the whole input. -/
def repairJsonString (input : String) : String :=
  if input = "" then input
  else String.mk (repairLoop input.data initRState)

/-! ## JSON values and a parser

Modelled from the spec: the host `JSON.parse` builtin (ECMA-404 JSON grammar)
that `parseToolArguments` in `client.js` calls is not part of the repository;
`jsonParse` below is a standard recursive-descent JSON parser standing in for
it.  Numbers are kept as their validated literal text (no floating point). -/

/-- A parsed JSON value.  `num` stores the validated numeric literal verbatim
(so `1e1` and `10` are distinct values here; no claim compares numbers). -/
inductive Json where
  | null
  | bool (b : Bool)
  | num (lit : String)
  | str (s : String)
  | arr (elems : List Json)
  | obj (fields : List (String × Json))

/-- JSON insignificant whitespace: space, tab, line feed, carriage return. -/
def skipWs (cs : List Char) : List Char :=
  cs.dropWhile isWhitespace

/-- Parse the body of a JSON string after the opening quote; returns the
decoded content and the suffix after the closing quote.  The `\uXXXX` escape
is rejected when the code is a UTF-16 surrogate (a Lean `Char` cannot hold
it; no claim exercises surrogates). -/
def parseStringBody : List Char → Option (List Char × List Char)
  | [] => none
  | '"' :: rest => some ([], rest)
  | '\\' :: e :: rest =>
    match e with
    | '"' => (parseStringBody rest).map (fun p => ('"' :: p.1, p.2))
    | '\\' => (parseStringBody rest).map (fun p => ('\\' :: p.1, p.2))
    | '/' => (parseStringBody rest).map (fun p => ('/' :: p.1, p.2))
    | 'b' => (parseStringBody rest).map (fun p => ('\x08' :: p.1, p.2))
    | 'f' => (parseStringBody rest).map (fun p => ('\x0c' :: p.1, p.2))
    | 'n' => (parseStringBody rest).map (fun p => ('\n' :: p.1, p.2))
    | 'r' => (parseStringBody rest).map (fun p => ('\r' :: p.1, p.2))
    | 't' => (parseStringBody rest).map (fun p => ('\t' :: p.1, p.2))
    | 'u' =>
      match rest with
      | a :: b :: c :: d :: rest' =>
        match hexVal a, hexVal b, hexVal c, hexVal d with
        | some ha, some hb, some hc, some hd =>
          let code := ha * 4096 + hb * 256 + hc * 16 + hd
          if code < 0xd800 ∨ (0xdfff < code ∧ code < 0x110000) then
            (parseStringBody rest').map (fun p => (Char.ofNat code :: p.1, p.2))
          else none
        | _, _, _, _ => none
      | _ => none
    | _ => none
  | c :: rest =>
    if c.toNat ≥ 0x20 ∧ c ≠ '"' ∧ c ≠ '\\' then
      (parseStringBody rest).map (fun p => (c :: p.1, p.2))
    else none
where
  /-- Value of a hexadecimal digit character. -/
  hexVal (c : Char) : Option Nat :=
    if '0' ≤ c ∧ c ≤ '9' then some (c.toNat - 48)
    else if 'a' ≤ c ∧ c ≤ 'f' then some (c.toNat - 87)
    else if 'A' ≤ c ∧ c ≤ 'F' then some (c.toNat - 55)
    else none

/-- Scan a JSON number literal (`-? int frac? exp?`); returns the literal's
characters and the remaining suffix. -/
def scanNumber (cs : List Char) : Option (List Char × List Char) :=
  let (sign, cs1) :=
    match cs with
    | '-' :: r => (['-'], r)
    | _ => (([] : List Char), cs)
  match cs1 with
  | '0' :: r => scanFrac (sign ++ ['0']) r
  | c :: r =>
    if isDigit c then
      let ds := r.takeWhile isDigit
      scanFrac (sign ++ c :: ds) (r.dropWhile isDigit)
    else none
  | [] => none
where
  /-- Optional fraction part, then the exponent part. -/
  scanFrac (acc : List Char) (cs : List Char) : Option (List Char × List Char) :=
    match cs with
    | '.' :: r =>
      let ds := r.takeWhile isDigit
      if ds = [] then none
      else scanExp (acc ++ '.' :: ds) (r.dropWhile isDigit)
    | _ => scanExp acc cs
  /-- Optional exponent part. -/
  scanExp (acc : List Char) (cs : List Char) : Option (List Char × List Char) :=
    match cs with
    | e :: r =>
      if e = 'e' ∨ e = 'E' then
        let (sgn, r1) :=
          match r with
          | s :: r' => if s = '+' ∨ s = '-' then ([s], r') else (([] : List Char), r)
          | [] => ([], r)
        let ds := r1.takeWhile isDigit
        if ds = [] then none
        else some (acc ++ e :: (sgn ++ ds), r1.dropWhile isDigit)
      else some (acc, cs)
    | [] => some (acc, cs)

mutual

/-- Parse one JSON value (fuelled recursive descent). -/
def parseValue : Nat → List Char → Option (Json × List Char)
  | 0, _ => none
  | Nat.succ fuel, cs =>
    match skipWs cs with
    | 'n' :: 'u' :: 'l' :: 'l' :: rest => some (Json.null, rest)
    | 't' :: 'r' :: 'u' :: 'e' :: rest => some (Json.bool true, rest)
    | 'f' :: 'a' :: 'l' :: 's' :: 'e' :: rest => some (Json.bool false, rest)
    | '"' :: rest =>
      match parseStringBody rest with
      | some (content, r) => some (Json.str (String.mk content), r)
      | none => none
    | '[' :: rest =>
      (match skipWs rest with
      | ']' :: r => some (Json.arr [], r)
      | _ =>
        match parseElems fuel rest with
        | some (es, r) => some (Json.arr es, r)
        | none => none)
    | '\x7b' :: rest =>
      (match skipWs rest with
      | '\x7d' :: r => some (Json.obj [], r)
      | _ =>
        match parseMembers fuel rest with
        | some (ms, r) => some (Json.obj ms, r)
        | none => none)
    | other =>
      match scanNumber other with
      | some (lit, rest) => some (Json.num (String.mk lit), rest)
      | none => none

/-- Parse the elements of a non-empty JSON array up to the closing bracket. -/
def parseElems : Nat → List Char → Option (List Json × List Char)
  | 0, _ => none
  | Nat.succ fuel, cs =>
    match parseValue fuel cs with
    | none => none
    | some (v, rest) =>
      match skipWs rest with
      | ',' :: r =>
        (match parseElems fuel r with
        | some (vs, r') => some (v :: vs, r')
        | none => none)
      | ']' :: r => some ([v], r)
      | _ => none

/-- Parse the members of a non-empty JSON object up to the closing brace. -/
def parseMembers : Nat → List Char → Option (List (String × Json) × List Char)
  | 0, _ => none
  | Nat.succ fuel, cs =>
    match skipWs cs with
    | '"' :: rest =>
      (match parseStringBody rest with
      | none => none
      | some (key, r1) =>
        match skipWs r1 with
        | ':' :: r2 =>
          (match parseValue fuel r2 with
          | none => none
          | some (v, r3) =>
            match skipWs r3 with
            | ',' :: r4 =>
              (match parseMembers fuel r4 with
              | some (ms, r5) => some ((String.mk key, v) :: ms, r5)
              | none => none)
            | '\x7d' :: r4 => some ([(String.mk key, v)], r4)
            | _ => none)
        | _ => none)
    | _ => none

end

/-- Modelled from the spec: the host `JSON.parse`.  `some v` models a
successful parse, `none` models a thrown `SyntaxError`.  The fuel bound of
twice the length strictly dominates the recursion depth. -/
def jsonParse (s : String) : Option Json :=
  match parseValue (2 * s.length + 2) s.data with
  | some (v, rest) => if skipWs rest = [] then some v else none
  | none => none

/-! ## Tool-argument parsing (`parseToolArguments` in `client.js`) -/

/-- Whitespace removed by JS `String.prototype.trim` (ASCII part: space, tab,
line feed, carriage return, vertical tab, form feed). -/
def isJsTrimWs (c : Char) : Bool :=
  c = ' ' || c = '\t' || c = '\n' || c = '\r' || c = '\x0b' || c = '\x0c'

/-- JS `String.prototype.trim` (ASCII model): drop leading and trailing
whitespace. -/
def jsTrim (s : String) : String :=
  String.mk (((s.data.dropWhile isJsTrimWs).reverse.dropWhile isJsTrimWs).reverse)

/-- JS `String.prototype.toLowerCase` (ASCII model): lower-case `A`–`Z`. -/
def jsToLower (s : String) : String :=
  String.mk (s.data.map (fun c =>
    if 'A' ≤ c && c ≤ 'Z' then Char.ofNat (c.toNat + 32) else c))

/-- Source `parseToolArguments`.  Blank text (JS `!argsRaw || !argsRaw.trim()`)
yields the empty object without any parse attempt; otherwise a direct parse is
tried, and on failure the repaired text is reparsed once when the repair
produced a different non-empty string.  `Except.error` models a thrown
`Error` (the JS message also embeds the parser's own message, which the host
`JSON.parse` produces and is not modelled here). -/
def parseToolArguments (toolName : String) (argsRaw : String) : Except String Json :=
  if jsTrim argsRaw = "" then Except.ok (Json.obj [])
  else
    match jsonParse argsRaw with
    | some v => Except.ok v
    | none =>
      let repaired := repairJsonString argsRaw
      if repaired ≠ "" ∧ repaired ≠ argsRaw then
        match jsonParse repaired with
        | some v => Except.ok v
        | none => Except.error ("Failed to parse arguments for tool " ++ toolName ++ ": repaired parse failed")
      else Except.error ("Failed to parse arguments for tool " ++ toolName ++ ": parse failed")

/-! ## The session (`ChatSession` class) -/

/-- A tool-call request as carried on an assistant message (`call.id`,
`call.function.name`, `call.function.arguments`).  The empty string models an
absent `arguments` field; both are JS-falsy and `ModelClient.chat` treats them
identically (`call.function?.arguments || '{}'`). -/
structure ToolCallReq where
  id : String
  name : String
  arguments : String
deriving DecidableEq, Repr

/-- A conversation message.  An empty `toolCalls` list models an absent
`tool_calls` field (`addAssistant` only attaches the field for a non-empty
array); `reasoning = none` models an absent `reasoning_content` field. -/
inductive Msg where
  | system (content : String)
  | user (content : String)
  | assistant (content : String) (toolCalls : List ToolCallReq) (reasoning : Option String)
  | tool (toolCallId : String) (content : String)
deriving DecidableEq, Repr

/-- The `ChatSession` state: the stored system prompt (`null` modelled as
`none`; the class never stores an empty string) and the ordered message log. -/
structure Session where
  systemPrompt : Option String
  messages : List Msg
deriving DecidableEq, Repr

/-- The argument of `ChatSession.reset`: JS `undefined` (parameter omitted),
`null`, or a string. -/
inductive ResetArg where
  | undef
  | null
  | str (s : String)
deriving DecidableEq, Repr

/-- Source `ChatSession.addUser`. -/
def Session.addUser (s : Session) (content : String) : Session :=
  { s with messages := s.messages ++ [Msg.user content] }

/-- Source `ChatSession.addAssistant`: appends an assistant message; the
`tool_calls` field is attached only for a non-empty array and the
`reasoning_content` field only for string metadata (both encoded in `Msg`). -/
def Session.addAssistant (s : Session) (content : String) (toolCalls : List ToolCallReq)
    (metadata : Option String) : Session :=
  { s with messages := s.messages ++ [Msg.assistant content toolCalls metadata] }

/-- Source `ChatSession.addToolResult`: appends a `tool` message carrying the
answered call's id. -/
def Session.addToolResult (s : Session) (toolCallId : String) (content : String) : Session :=
  { s with messages := s.messages ++ [Msg.tool toolCallId content] }

/-- Source `ChatSession.popLast`: drops the last message when one exists. -/
def Session.popLast (s : Session) : Session :=
  { s with messages := s.messages.dropLast }

/-- Source `ChatSession.reset`: an `undefined` argument keeps the stored
prompt; `null` clears it; a string is stored when non-empty and cleared
otherwise.  The log is then re-seeded with one system message exactly when
the stored prompt is a non-empty string. -/
def Session.reset (s : Session) (arg : ResetArg) : Session :=
  let sp : Option String :=
    match arg with
    | ResetArg.undef => s.systemPrompt
    | ResetArg.null => none
    | ResetArg.str t => if t.length > 0 then some t else none
  { systemPrompt := sp,
    messages :=
      match sp with
      | some t => if t.length > 0 then [Msg.system t] else []
      | none => [] }

/-- Source `ChatSession` constructor: `constructor(systemPrompt = null)`
starts from an empty state and calls `reset`. -/
def ChatSession.new (arg : ResetArg) : Session :=
  Session.reset { systemPrompt := none, messages := [] } arg

/-- Source `ChatSession.checkpoint`: the current number of messages. -/
def Session.checkpoint (s : Session) : Nat :=
  s.messages.length

/-- Source `ChatSession.restore`: `messages.length = Math.max(0, length)`.
For a checkpoint at or below the current length (the only way the loop uses
it) the JS length assignment truncates the array, which `List.take` models;
`Nat` already carries the `Math.max(0, ·)` clamp. -/
def Session.restore (s : Session) (length : Nat) : Session :=
  { s with messages := s.messages.take length }

/-- Number of `system`-role messages in a message list. -/
def countSystem : List Msg → Nat
  | [] => 0
  | Msg.system _ :: rest => countSystem rest + 1
  | _ :: rest => countSystem rest

/-! ## The tool-dispatch loop (`ModelClient.chat`) -/

/-- Errors thrown out of `ModelClient.chat`, one constructor per `throw`
site: `ConfigError` for an unregistered tool, the argument-parse `Error`,
an error thrown by a tool handler, and the loop-cap `Error` (`'Too many
consecutive tool calls. Aborting.'`). -/
inductive ChatError where
  | configError (msg : String)
  | parseError (msg : String)
  | toolError (msg : String)
  | tooManyToolCalls
deriving DecidableEq, Repr

/-- A registered tool as seen by `ModelClient.chat`: a name and a handler.
The handler models `await target.handler(parsedArgs, …)`: it returns the
stringified tool result or throws. -/
structure ToolDef where
  name : String
  handler : Json → Except String String

/-- One canonical provider round result (`{content, reasoning, toolCalls}`);
`result.toolCalls || []` is modelled by the list itself. -/
structure ProviderResult where
  content : String
  reasoning : Option String
  toolCalls : List ToolCallReq

/-- The `reasoningContent` computation in `chat`: keep the reasoning text only
when it is a string of positive length. -/
def reasoningMeta (r : Option String) : Option String :=
  match r with
  | some t => if t.length > 0 then some t else none
  | none => none

/-- One iteration of the `for (const call of toolCalls)` body: resolve the
tool by name, default blank arguments text to `'{}'`, parse the arguments,
invoke the handler, and append the tool-result message. -/
def dispatchCall (toolset : List ToolDef) (call : ToolCallReq) (s : Session) :
    Except ChatError Session :=
  match toolset.find? (fun t => t.name == call.name) with
  | none =>
    Except.error (ChatError.configError
      ("Tool \"" ++ call.name ++ "\" is not registered but was requested by the model"))
  | some target =>
    let argsRaw := if call.arguments = "" then "\x7b\x7d" else call.arguments
    match parseToolArguments target.name argsRaw with
    | Except.error msg => Except.error (ChatError.parseError msg)
    | Except.ok parsedArgs =>
      match target.handler parsedArgs with
      | Except.error msg => Except.error (ChatError.toolError msg)
      | Except.ok toolResult => Except.ok (s.addToolResult call.id toolResult)

/-- The whole `for` loop over a batch's calls, threading the session; an
error carries the session as it stood when the loop aborted. -/
def dispatchCalls (toolset : List ToolDef) :
    List ToolCallReq → Session → Except (ChatError × Session) Session
  | [], s => Except.ok s
  | call :: rest, s =>
    match dispatchCall toolset call s with
    | Except.error e => Except.error (e, s)
    | Except.ok s' => dispatchCalls toolset rest s'

/-- The tool-dispatch batch of `chat`: checkpoint, append the assistant
message, run the calls; on any error restore the checkpoint and rethrow. -/
def runToolBatch (toolset : List ToolDef) (finalText : String)
    (toolCalls : List ToolCallReq) (meta : Option String) (s : Session) :
    Except (ChatError × Session) Session :=
  let checkpoint := s.checkpoint
  let s1 := s.addAssistant finalText toolCalls meta
  match dispatchCalls toolset toolCalls s1 with
  | Except.ok s2 => Except.ok s2
  | Except.error (e, sErr) => Except.error (e, sErr.restore checkpoint)

/-- Outcome of `ModelClient.chat`: the returned text or thrown error, the
final session state, and how many provider completions were requested. -/
structure ChatOutcome where
  result : Except ChatError String
  session : Session
  providerCalls : Nat
deriving Repr

/-- The `while (iteration < maxToolPasses)` loop of `chat`, entered at a given
iteration count.  The provider is modelled as a function from the round number
to its canonical result (the source passes the transcript; the claims
quantify over provider behaviour per round). -/
def chatFrom (provider : Nat → ProviderResult) (toolset : List ToolDef)
    (maxToolPasses : Nat) (iteration : Nat) (s : Session) : ChatOutcome :=
  if h : iteration < maxToolPasses then
    let result := provider iteration
    let finalText := jsTrim result.content
    let toolCalls := result.toolCalls
    let meta := reasoningMeta result.reasoning
    if toolCalls.length > 0 then
      match runToolBatch toolset finalText toolCalls meta s with
      | Except.ok s2 =>
        let rest := chatFrom provider toolset maxToolPasses (iteration + 1) s2
        { rest with providerCalls := rest.providerCalls + 1 }
      | Except.error (e, sErr) =>
        { result := Except.error e, session := sErr, providerCalls := 1 }
    else
      { result := Except.ok finalText,
        session := s.addAssistant finalText [] meta,
        providerCalls := 1 }
  else
    { result := Except.error ChatError.tooManyToolCalls, session := s, providerCalls := 0 }
termination_by maxToolPasses - iteration
decreasing_by omega

/-- Source `ModelClient.chat` from the top of the loop:
`maxToolPasses = options.maxToolPasses ?? 60`, iteration count starting at 0. -/
def chat (provider : Nat → ProviderResult) (toolset : List ToolDef)
    (maxToolPassesOpt : Option Nat) (s : Session) : ChatOutcome :=
  chatFrom provider toolset (maxToolPassesOpt.getD 60) 0 s

/-! ## Streaming tool-call delta merging (`OpenAIProvider.#mergeToolCalls`) -/

/-- One accumulated tool-call record `{id, type, function:{name, arguments}}`
(the nested `function` object is flattened into `fname`/`farguments`). -/
structure MergedCall where
  id : String
  type : String
  fname : String
  farguments : String
deriving DecidableEq, Repr

/-- One streamed delta.  `index = none` models an absent (`undefined`) index;
for the string fields the empty string models an absent fragment — JS tests
them with truthiness (`delta.id`, `delta.function?.name`, …), which conflates
`''` and `undefined`. -/
structure CallDelta where
  index : Option Nat
  id : String
  type : String
  fname : String
  farguments : String
deriving DecidableEq, Repr

/-- Store a record at an index of a possibly-sparse JS array, padding with
holes (`none`) beyond the current length. -/
def setPad : List (Option MergedCall) → Nat → MergedCall → List (Option MergedCall)
  | [], 0, x => [some x]
  | [], Nat.succ n, x => none :: setPad [] n x
  | _ :: rest, 0, x => some x :: rest
  | y :: rest, Nat.succ n, x => y :: setPad rest n x

/-- Element of a possibly-sparse array (`undefined` beyond the length or at a
hole becomes `none`). -/
def getAt (l : List (Option MergedCall)) (i : Nat) : Option MergedCall :=
  (l.get? i).bind id

/-- One delta application of `#mergeToolCalls`: resolve the target index
(`delta.index ?? existing.length`), create the record if absent, then apply
last-write-wins updates for `id`/`name` and concatenation for `arguments`. -/
def mergeStep (existing : List (Option MergedCall)) (delta : CallDelta) :
    List (Option MergedCall) :=
  let index := delta.index.getD existing.length
  let target :=
    match getAt existing index with
    | some t => t
    | none =>
      { id := delta.id,
        type := if delta.type = "" then "function" else delta.type,
        fname := delta.fname,
        farguments := "" }
  let t1 := if delta.id ≠ "" then { target with id := delta.id } else target
  let t2 := if delta.fname ≠ "" then { t1 with fname := delta.fname } else t1
  let t3 :=
    if delta.farguments ≠ "" then { t2 with farguments := t2.farguments ++ delta.farguments }
    else t2
  setPad existing index t3

/-- Source `#mergeToolCalls`: fold the deltas, in stream order, into the
accumulated array. -/
def mergeToolCalls (existing : List (Option MergedCall)) (deltas : List CallDelta) :
    List (Option MergedCall) :=
  deltas.foldl mergeStep existing

/-! ## MCP tool identifiers (`buildToolIdentifier` in `mcp/runtime.js`) -/

/-- Is `c` kept by the normalizer (`[a-z0-9_-]` after lower-casing)? -/
def isIdentChar (c : Char) : Bool :=
  ('a' ≤ c && c ≤ 'z') || isDigit c || c = '_' || c = '-'

mutual

/-- The regex replacement `.replace(/[^a-z0-9_-]+/g, '_')`: each maximal run
of non-identifier characters becomes a single underscore. -/
def squashNonIdent : List Char → List Char
  | [] => []
  | c :: rest =>
    if isIdentChar c then c :: squashNonIdent rest
    else '_' :: skipNonIdentRun rest

/-- Skip the remainder of a non-identifier run (its underscore has already
been emitted), then resume squashing. -/
def skipNonIdentRun : List Char → List Char
  | [] => []
  | c :: rest =>
    if isIdentChar c then c :: squashNonIdent rest
    else skipNonIdentRun rest

end

/-- The inner `normalize` of `buildToolIdentifier`: trim, lower-case, squash
non-identifier runs. -/
def normalizeIdentPart (value : String) : String :=
  String.mk (squashNonIdent (jsToLower (jsTrim value)).data)

/-- The normalized server part with its fallback (`normalize(serverName) ||
'mcp_server'`). -/
def serverSlug (serverName : String) : String :=
  if normalizeIdentPart serverName = "" then "mcp_server" else normalizeIdentPart serverName

/-- The normalized tool part with its fallback (`normalize(toolName) ||
'tool'`). -/
def toolSlug (toolName : String) : String :=
  if normalizeIdentPart toolName = "" then "tool" else normalizeIdentPart toolName

/-- Source `buildToolIdentifier`: `` `mcp_${server}_${tool}` ``. -/
def buildToolIdentifier (serverName toolName : String) : String :=
  "mcp_" ++ serverSlug serverName ++ "_" ++ toolSlug toolName

/-- The names of the local (builtin) tools registered in `tools/builtin.js`. -/
def localToolNames : List String :=
  ["get_current_time", "echo_text", "invoke_sub_agent"]

/-! ## Decomposition of the repair scan (for the totality/EOI claim)

The source's single loop both emits output per character and, after the loop,
appends closing text determined by the final scanner state.  `repairBody` and
`repairFinalState` separate the two; their recombination is proved below. -/

/-- The per-character output of the scan, without the end-of-input closer. -/
def repairBody : List Char → RState → List Char
  | [], _ => []
  | c :: rest, st =>
    if st.inString then
      if st.escaping then
        escapeOut c ++ repairBody rest { st with escaping := false }
      else if c = '\\' then
        repairBody rest { st with escaping := true }
      else if c = '"' then
        if st.stringIsKey || looksLikeValueTerminator rest (containerTypeOf st.stack) then
          '"' :: repairBody rest
            { st with inString := false, stringIsKey := false,
                      stack := updateObjectKeyState st.stack false }
        else
          '\\' :: '"' :: repairBody rest st
      else if c = '\n' then
        '\\' :: 'n' :: repairBody rest st
      else if c = '\r' then
        '\\' :: 'r' :: repairBody rest st
      else if c.toNat ≤ 0x1f then
        ('\\' :: 'u' :: hex4 c.toNat) ++ repairBody rest st
      else
        c :: repairBody rest st
    else
      if c = '"' then
        '"' :: repairBody rest
          { st with inString := true, escaping := false, stringIsKey := isExpectingKey st.stack }
      else if c = '\x7b' then
        c :: repairBody rest { st with stack := RFrame.obj true :: st.stack }
      else if c = '[' then
        c :: repairBody rest { st with stack := RFrame.arr :: st.stack }
      else if c = '\x7d' || c = ']' then
        c :: repairBody rest { st with stack := st.stack.tail }
      else if c = ':' then
        c :: repairBody rest { st with stack := updateObjectKeyState st.stack false }
      else if c = ',' then
        c :: repairBody rest { st with stack := updateObjectKeyState st.stack true }
      else
        c :: repairBody rest st

/-- The scanner state left after consuming the whole input. -/
def repairFinalState : List Char → RState → RState
  | [], st => st
  | c :: rest, st =>
    if st.inString then
      if st.escaping then
        repairFinalState rest { st with escaping := false }
      else if c = '\\' then
        repairFinalState rest { st with escaping := true }
      else if c = '"' then
        if st.stringIsKey || looksLikeValueTerminator rest (containerTypeOf st.stack) then
          repairFinalState rest
            { st with inString := false, stringIsKey := false,
                      stack := updateObjectKeyState st.stack false }
        else
          repairFinalState rest st
      else if c = '\n' then
        repairFinalState rest st
      else if c = '\r' then
        repairFinalState rest st
      else if c.toNat ≤ 0x1f then
        repairFinalState rest st
      else
        repairFinalState rest st
    else
      if c = '"' then
        repairFinalState rest
          { st with inString := true, escaping := false, stringIsKey := isExpectingKey st.stack }
      else if c = '\x7b' then
        repairFinalState rest { st with stack := RFrame.obj true :: st.stack }
      else if c = '[' then
        repairFinalState rest { st with stack := RFrame.arr :: st.stack }
      else if c = '\x7d' || c = ']' then
        repairFinalState rest { st with stack := st.stack.tail }
      else if c = ':' then
        repairFinalState rest { st with stack := updateObjectKeyState st.stack false }
      else if c = ',' then
        repairFinalState rest { st with stack := updateObjectKeyState st.stack true }
      else
        repairFinalState rest st

/-- The defensive end-of-input closer: complete a trailing open escape, then
close a still-open string. -/
def repairTrailer (st : RState) : List Char :=
  (if st.escaping then ['\\', '\\'] else []) ++ (if st.inString then ['"'] else [])

/-! ## Projections of the merged tool-call array (for the delta-merge claim) -/

/-- The accumulated `arguments` text at an index (`''` when no record exists). -/
def argsAtIdx (l : List (Option MergedCall)) (i : Nat) : String :=
  match getAt l i with
  | some t => t.farguments
  | none => ""

/-- The accumulated `function.name` at an index. -/
def nameAtIdx (l : List (Option MergedCall)) (i : Nat) : String :=
  match getAt l i with
  | some t => t.fname
  | none => ""

/-- The accumulated `id` at an index. -/
def idAtIdx (l : List (Option MergedCall)) (i : Nat) : String :=
  match getAt l i with
  | some t => t.id
  | none => ""

/-! ## Concrete fixtures used by witnesses -/

/-- A provider that requests the same single trivial tool call every round. -/
def wProvider : Nat → ProviderResult :=
  fun _ => { content := "", reasoning := none, toolCalls := [⟨"call1", "t", ""⟩] }

/-- A toolset holding one always-succeeding trivial tool named `t`. -/
def wToolset : List ToolDef :=
  [⟨"t", fun _ => Except.ok "done"⟩]

/-- A small concrete session used by witnesses. -/
def wSession : Session :=
  ⟨some "sys", [Msg.system "sys", Msg.user "hello"]⟩

/-- A small concrete JSON value used by witnesses. -/
def wJson : Json :=
  Json.obj [("path", Json.str "ab"), ("n", Json.num "12")]

/-! ## A grammar of canonical JSON text (for the repair-idempotence claim)

Modelled from the spec: "syntactically valid canonical JSON string containing
no embedded quotes or control characters that require escaping".  `Gram true S
cs` says `cs` is a complete JSON value followed by a legal continuation for
enclosing context `S`; `Gram false S cs` says `cs` is a legal continuation
right after a value in context `S`.  String contents are restricted to
characters needing no escaping; `Gram true [] cs` with `cs` ending the input
is exactly a whole canonical JSON text. -/

/-- A string character requiring no JSON escaping: not a quote, not a
backslash, not a control character. -/
def SafeStrChar (c : Char) : Bool :=
  c ≠ '"' && c ≠ '\\' && decide (0x1f < c.toNat)

/-- A character that is structurally inert outside strings for the repair
scanner (none of `"` `\x7b` `\x7d` `[` `]` `:` `,`). -/
def PlainChar (c : Char) : Bool :=
  c ≠ '"' && c ≠ '\x7b' && c ≠ '\x7d' && c ≠ '[' && c ≠ ']' && c ≠ ':' && c ≠ ','

/-- A character that can begin a JSON literal token (number, `true`, `false`,
`null`). -/
def LitHeadChar (c : Char) : Bool :=
  c = '-' || c = 't' || c = 'f' || c = 'n' || isDigit c

/-- The shape of a whole literal token: non-empty, literal head, all
characters structurally inert. -/
def litTokenShaped : List Char → Bool
  | [] => false
  | c :: rest => LitHeadChar c && PlainChar c && rest.all PlainChar

/-- The stack frames reachable at a value/continuation boundary: arrays, and
objects not currently expecting a key. -/
def OkStack (S : List RFrame) : Prop :=
  ∀ f ∈ S, f = RFrame.arr ∨ f = RFrame.obj false

/-- The grammar of canonical JSON continuations (see section comment). -/
inductive Gram : Bool → List RFrame → List Char → Prop where
  | tNil : Gram false [] []
  | tArrComma {S cs} : Gram true (RFrame.arr :: S) cs →
      Gram false (RFrame.arr :: S) (',' :: cs)
  | tArrClose {S cs} : Gram false S cs →
      Gram false (RFrame.arr :: S) (']' :: cs)
  | tObjComma {S k cs} : k.all SafeStrChar = true →
      Gram true (RFrame.obj false :: S) cs →
      Gram false (RFrame.obj false :: S) (',' :: '"' :: (k ++ '"' :: ':' :: cs))
  | tObjClose {S cs} : Gram false S cs →
      Gram false (RFrame.obj false :: S) ('\x7d' :: cs)
  | vLit {S lit cs} : litTokenShaped lit = true → Gram false S cs →
      Gram true S (lit ++ cs)
  | vStr {S str cs} : str.all SafeStrChar = true → Gram false S cs →
      Gram true S ('"' :: (str ++ '"' :: cs))
  | vArrNil {S cs} : Gram false S cs → Gram true S ('[' :: ']' :: cs)
  | vArrCons {S cs} : Gram true (RFrame.arr :: S) cs → Gram true S ('[' :: cs)
  | vObjNil {S cs} : Gram false S cs → Gram true S ('\x7b' :: '\x7d' :: cs)
  | vObjFirst {S k cs} : k.all SafeStrChar = true →
      Gram true (RFrame.obj false :: S) cs →
      Gram true S ('\x7b' :: '"' :: (k ++ '"' :: ':' :: cs))

/-! ## Canonical JSON rendering (`JSON.stringify`-shaped, no whitespace) -/

mutual

/-- Canonical (whitespace-free) rendering of a JSON value. -/
def renderChars : Json → List Char
  | Json.null => ['n', 'u', 'l', 'l']
  | Json.bool true => ['t', 'r', 'u', 'e']
  | Json.bool false => ['f', 'a', 'l', 's', 'e']
  | Json.num lit => lit.data
  | Json.str s => '"' :: (s.data ++ ['"'])
  | Json.arr [] => ['[', ']']
  | Json.arr (v :: vs) => '[' :: (renderChars v ++ (renderElemsTail vs ++ [']']))
  | Json.obj [] => ['\x7b', '\x7d']
  | Json.obj ((k, v) :: kvs) =>
    '\x7b' :: '"' :: (k.data ++ '"' :: ':' :: (renderChars v ++ (renderMembersTail kvs ++ ['\x7d'])))

/-- Rendering of the second and later array elements, each with its comma. -/
def renderElemsTail : List Json → List Char
  | [] => []
  | v :: vs => ',' :: (renderChars v ++ renderElemsTail vs)

/-- Rendering of the second and later object members, each with its comma. -/
def renderMembersTail : List (String × Json) → List Char
  | [] => []
  | (k, v) :: kvs => ',' :: '"' :: (k.data ++ '"' :: ':' :: (renderChars v ++ renderMembersTail kvs))

end

/-- The rendered text as a string. -/
def render (v : Json) : String :=
  String.mk (renderChars v)

mutual

/-- A value whose rendering needs no escaping: every string and key consists
of `SafeStrChar`s and every numeric literal is literal-token shaped. -/
def safeJson : Json → Bool
  | Json.null => true
  | Json.bool _ => true
  | Json.num lit => litTokenShaped lit.data
  | Json.str s => s.data.all SafeStrChar
  | Json.arr vs => safeList vs
  | Json.obj kvs => safeMembers kvs

/-- `safeJson` for every element. -/
def safeList : List Json → Bool
  | [] => true
  | v :: vs => safeJson v && safeList vs

/-- `safeJson` for every member value, and safe characters in every key. -/
def safeMembers : List (String × Json) → Bool
  | [] => true
  | (k, v) :: kvs => k.data.all SafeStrChar && safeJson v && safeMembers kvs

end

/-! # Theorems -/

/-- C6: for the raw arguments text `{"path": "a"b"}` (an unescaped quote in
the middle of a string value) a direct JSON parse fails, `repairJsonString`
yields `{"path": "a\"b"}`, and parsing the repaired text succeeds with an
object whose `path` field is the string `a"b`. -/
theorem repair_scenario_unescaped_quote :
    jsonParse "\x7b\"path\": \"a\"b\"\x7d" = none ∧
    repairJsonString "\x7b\"path\": \"a\"b\"\x7d" = "\x7b\"path\": \"a\\\"b\"\x7d" ∧
    jsonParse "\x7b\"path\": \"a\\\"b\"\x7d" = some (Json.obj [("path", Json.str "a\"b")]) :=
  ⟨rfl, rfl, rfl⟩

/-- C10: blank raw arguments (empty or whitespace-only, JS
`!argsRaw || !argsRaw.trim()`) make `parseToolArguments` return the empty
object without any parse attempt and without error; a literally-absent
`arguments` field is defaulted to the text `'{}'` at the dispatch site, which
also parses to the empty object. -/
theorem parseToolArguments_blank_yields_empty_object :
    (∀ toolName raw, jsTrim raw = "" →
      parseToolArguments toolName raw = Except.ok (Json.obj [])) ∧
    (∀ toolName, parseToolArguments toolName "\x7b\x7d" = Except.ok (Json.obj [])) ∧
    (∀ toolset call s, call.arguments = "" →
      dispatchCall toolset call s =
        dispatchCall toolset { call with arguments := "\x7b\x7d" } s) := by
  refine ⟨?_, ?_, ?_⟩
  · intro toolName raw h
    simp [parseToolArguments, h]
  · intro toolName
    rfl
  · intro toolset call s h
    simp [dispatchCall, h]

/-- C10 witness: a whitespace-only arguments text parses to the empty object. -/
theorem parseToolArguments_blank_yields_empty_object_witness :
    jsTrim "  " = "" ∧ parseToolArguments "demo" "  " = Except.ok (Json.obj []) :=
  ⟨rfl, parseToolArguments_blank_yields_empty_object.1 "demo" "  " rfl⟩

/-- C8 counterexample: `reset` with an `undefined` prompt re-uses the stored
prompt, so a session constructed with the prompt `"hi"` still holds one
system message after `reset(undefined)` — not zero as the claim states. -/
theorem reset_undef_reuses_stored_prompt :
    ¬ countSystem ((ChatSession.new (ResetArg.str "hi")).reset ResetArg.undef).messages = 0 := by
  decide

/-- C8 (amended): after any `reset` the session holds at most one system
message; it holds zero when the prompt argument is the empty string or null,
and zero for an `undefined` argument exactly when no prompt is stored (an
`undefined` argument re-applies the stored prompt). -/
theorem reset_system_message_count (s : Session) (arg : ResetArg) :
    countSystem (s.reset arg).messages ≤ 1 ∧
    (arg = ResetArg.str "" → countSystem (s.reset arg).messages = 0) ∧
    (arg = ResetArg.null → countSystem (s.reset arg).messages = 0) ∧
    (arg = ResetArg.undef → s.systemPrompt = none →
      countSystem (s.reset arg).messages = 0) ∧
    (∀ t, arg = ResetArg.undef → s.systemPrompt = some t → t.length > 0 →
      countSystem (s.reset arg).messages = 1) := by
  refine ⟨?_, ?_, ?_, ?_, ?_⟩
  · cases arg with
    | undef =>
      cases hsp : s.systemPrompt with
      | none => simp [Session.reset, countSystem, hsp]
      | some t =>
        by_cases ht : t.length > 0 <;>
          simp [Session.reset, countSystem, hsp, ht]
    | null => simp [Session.reset, countSystem]
    | str t =>
      by_cases ht : t.length > 0 <;>
        simp [Session.reset, countSystem, ht]
  · rintro rfl
    simp [Session.reset, countSystem]
  · rintro rfl
    simp [Session.reset, countSystem]
  · rintro rfl hsp
    simp [Session.reset, countSystem, hsp]
  · rintro t rfl hsp ht
    simp [Session.reset, countSystem, hsp, ht]

/-- C8 witness: `reset(null)` on a session holding a prompt seeds no system
message. -/
theorem reset_system_message_count_witness :
    countSystem ((ChatSession.new (ResetArg.str "hi")).reset ResetArg.null).messages = 0 :=
  (reset_system_message_count (ChatSession.new (ResetArg.str "hi")) ResetArg.null).2.2.1 rfl

/-- C9 counterexample: the identifier derivation is lossy, so the two distinct
server names `a.b` and `a_b`, each exposing a tool literally named `search`,
produce the same registered identifier. -/
theorem buildToolIdentifier_lossy_collision :
    buildToolIdentifier "a.b" "search" = buildToolIdentifier "a_b" "search" ∧
    ("a.b" : String) ≠ "a_b" :=
  ⟨rfl, by decide⟩

/-- C9 (amended): identifiers of two servers exposing the same tool name are
distinct whenever the servers' normalized name parts differ, and no derived
identifier ever equals a local tool's name (they all start with `mcp_`). -/
theorem buildToolIdentifier_namespacing :
    (∀ s1 s2 t, serverSlug s1 ≠ serverSlug s2 →
      buildToolIdentifier s1 t ≠ buildToolIdentifier s2 t) ∧
    (∀ s t, buildToolIdentifier s t ∉ localToolNames) := by
  constructor
  · intro s1 s2 t hne heq
    apply hne
    have hd : ("mcp_".data ++ (serverSlug s1).data ++ "_".data) ++ (toolSlug t).data =
        ("mcp_".data ++ (serverSlug s2).data ++ "_".data) ++ (toolSlug t).data := by
      have := congrArg String.data heq
      simpa [buildToolIdentifier, List.append_assoc] using this
    have h1 := List.append_cancel_right hd
    have h2 := List.append_cancel_right h1
    have h3 := List.append_cancel_left h2
    exact String.ext h3
  · intro s t hmem
    have hm : (buildToolIdentifier s t).data.head? = some 'm' := rfl
    simp [localToolNames] at hmem
    rcases hmem with h | h | h <;> rw [h] at hm <;> exact absurd hm (by decide)

/-- C9 witness: servers named `alpha` and `beta` exposing `search` get
distinct identifiers. -/
theorem buildToolIdentifier_namespacing_witness :
    serverSlug "alpha" ≠ serverSlug "beta" ∧
    buildToolIdentifier "alpha" "search" ≠ buildToolIdentifier "beta" "search" :=
  ⟨by decide, buildToolIdentifier_namespacing.1 "alpha" "beta" "search" (by decide)⟩

/-- Element lookup after a padded store: the written index holds the record. -/
theorem getAt_setPad (x : MergedCall) :
    ∀ (l : List (Option MergedCall)) (i : Nat), getAt (setPad l i x) i = some x := by
  intro l
  induction l with
  | nil =>
    intro i
    induction i with
    | zero => rfl
    | succ n ihn => simpa [setPad, getAt, List.get?] using ihn
  | cons y rest ih =>
    intro i
    cases i with
    | zero => rfl
    | succ n => simpa [setPad, getAt, List.get?] using ih n

/-- C7: streamed tool-call delta fragments are merged per stream index into
growing records: an `arguments` fragment is concatenated onto the index's
accumulated arguments (never overwritten), `name` and `id` fragments are
last-write-wins for their index, and the spec's three-delta scenario merges
into the single request `{name: "x", arguments: "{\"a\":1}"}`. -/
theorem mergeToolCalls_accumulation :
    (∀ existing delta, delta.farguments ≠ "" →
      argsAtIdx (mergeStep existing delta) (delta.index.getD existing.length) =
        argsAtIdx existing (delta.index.getD existing.length) ++ delta.farguments) ∧
    (∀ existing delta, delta.fname ≠ "" →
      nameAtIdx (mergeStep existing delta) (delta.index.getD existing.length) = delta.fname) ∧
    (∀ existing delta, delta.id ≠ "" →
      idAtIdx (mergeStep existing delta) (delta.index.getD existing.length) = delta.id) ∧
    mergeToolCalls []
        [⟨some 0, "", "", "x", ""⟩,
         ⟨some 0, "", "", "", "\x7b\"a\":"⟩,
         ⟨some 0, "", "", "", "1\x7d"⟩] =
      [some ⟨"", "function", "x", "\x7b\"a\":1\x7d"⟩] := by
  refine ⟨?_, ?_, ?_, rfl⟩
  · intro ex d hd
    cases hg : getAt ex (d.index.getD ex.length) with
    | some t =>
      by_cases h1 : d.id = "" <;> by_cases h2 : d.fname = "" <;>
        simp [mergeStep, argsAtIdx, getAt_setPad, hg, hd, h1, h2]
    | none =>
      by_cases h1 : d.id = "" <;> by_cases h2 : d.fname = "" <;>
        simp [mergeStep, argsAtIdx, getAt_setPad, hg, hd, h1, h2]
  · intro ex d hd
    cases hg : getAt ex (d.index.getD ex.length) with
    | some t =>
      by_cases h1 : d.id = "" <;> by_cases h3 : d.farguments = "" <;>
        simp [mergeStep, nameAtIdx, getAt_setPad, hg, hd, h1, h3]
    | none =>
      by_cases h1 : d.id = "" <;> by_cases h3 : d.farguments = "" <;>
        simp [mergeStep, nameAtIdx, getAt_setPad, hg, hd, h1, h3]
  · intro ex d hd
    cases hg : getAt ex (d.index.getD ex.length) with
    | some t =>
      by_cases h2 : d.fname = "" <;> by_cases h3 : d.farguments = "" <;>
        simp [mergeStep, idAtIdx, getAt_setPad, hg, hd, h2, h3]
    | none =>
      by_cases h2 : d.fname = "" <;> by_cases h3 : d.farguments = "" <;>
        simp [mergeStep, idAtIdx, getAt_setPad, hg, hd, h2, h3]

/-- C7 witness: an `arguments` fragment for index 0 is appended to the
record's accumulated arguments. -/
theorem mergeToolCalls_accumulation_witness :
    CallDelta.farguments ⟨some 0, "", "", "", "xy"⟩ ≠ "" ∧
    argsAtIdx (mergeStep [some ⟨"i", "function", "x", "ab"⟩] ⟨some 0, "", "", "", "xy"⟩) 0 =
      argsAtIdx [some ⟨"i", "function", "x", "ab"⟩] 0 ++ "xy" :=
  ⟨by decide,
    mergeToolCalls_accumulation.1 [some ⟨"i", "function", "x", "ab"⟩]
      ⟨some 0, "", "", "", "xy"⟩ (by decide)⟩

/-- A successful per-call dispatch only appends the call's tool-result
message. -/
theorem dispatchCall_ok_shape (ts : List ToolDef) (call : ToolCallReq) (s s' : Session)
    (h : dispatchCall ts call s = Except.ok s') :
    ∃ r, s' = s.addToolResult call.id r := by
  simp only [dispatchCall] at h
  split at h
  · exact Except.noConfusion h
  · split at h
    · exact Except.noConfusion h
    · split at h
      · exact Except.noConfusion h
      · injection h with h
        exact ⟨_, h.symm⟩

/-- A failing batch loop leaves the session as the start session plus some
appended suffix, with the system prompt untouched. -/
theorem dispatchCalls_err_suffix (ts : List ToolDef) :
    ∀ (calls : List ToolCallReq) (s : Session) (e : ChatError) (sErr : Session),
      dispatchCalls ts calls s = Except.error (e, sErr) →
      sErr.systemPrompt = s.systemPrompt ∧ ∃ suf, sErr.messages = s.messages ++ suf := by
  intro calls
  induction calls with
  | nil =>
    intro s e sErr h
    exact Except.noConfusion h
  | cons c rest ih =>
    intro s e sErr h
    simp only [dispatchCalls] at h
    cases hd : dispatchCall ts c s with
    | error e' =>
      rw [hd] at h
      injection h with h
      injection h with h1 h2
      subst h2
      exact ⟨rfl, [], by simp⟩
    | ok s1 =>
      rw [hd] at h
      obtain ⟨hsp, suf, hm⟩ := ih s1 e sErr h
      obtain ⟨r, rfl⟩ := dispatchCall_ok_shape ts c s s1 hd
      refine ⟨by simpa [Session.addToolResult] using hsp, Msg.tool c.id r :: suf, ?_⟩
      simp [Session.addToolResult] at hm
      simp [hm]

/-- A fully-successful batch loop appends exactly one tool message per call,
in call order, each carrying its call's id. -/
theorem dispatchCalls_ok_shape (ts : List ToolDef) :
    ∀ (calls : List ToolCallReq) (s s' : Session),
      dispatchCalls ts calls s = Except.ok s' →
      ∃ results, results.length = calls.length ∧
        s'.messages = s.messages ++
          (calls.zip results).map (fun p => Msg.tool p.1.id p.2) ∧
        s'.systemPrompt = s.systemPrompt := by
  intro calls
  induction calls with
  | nil =>
    intro s s' h
    injection h with h
    subst h
    exact ⟨[], rfl, by simp, rfl⟩
  | cons c rest ih =>
    intro s s' h
    simp only [dispatchCalls] at h
    cases hd : dispatchCall ts c s with
    | error e => rw [hd] at h; exact Except.noConfusion h
    | ok s1 =>
      rw [hd] at h
      obtain ⟨results, hlen, hm, hsp⟩ := ih s1 s' h
      obtain ⟨r, rfl⟩ := dispatchCall_ok_shape ts c s s1 hd
      refine ⟨r :: results, by simp [hlen], ?_, by simpa [Session.addToolResult] using hsp⟩
      simp [Session.addToolResult] at hm
      simp [hm]

/-- C1: a checkpoint is taken before the batch's assistant message is
appended, and if dispatching the batch's calls fails anywhere — unknown tool,
argument-parse failure, or a throwing handler, at any position — the batch
returns exactly the propagated error together with the session restored to
the checkpointed length: the pre-batch session itself, independent of how far
the batch got. -/
theorem runToolBatch_rollback_on_error (ts : List ToolDef) (finalText : String)
    (toolCalls : List ToolCallReq) (meta : Option String) (s : Session)
    (e : ChatError) (sMid : Session)
    (h : dispatchCalls ts toolCalls (s.addAssistant finalText toolCalls meta) =
      Except.error (e, sMid)) :
    runToolBatch ts finalText toolCalls meta s = Except.error (e, s) := by
  obtain ⟨hsp, suf, hm⟩ := dispatchCalls_err_suffix ts toolCalls _ e sMid h
  have hrest : sMid.restore s.checkpoint = s := by
    have hm' : sMid.messages = s.messages ++ (Msg.assistant finalText toolCalls meta :: suf) := by
      simpa [Session.addAssistant] using hm
    have hsp' : sMid.systemPrompt = s.systemPrompt := by
      simpa [Session.addAssistant] using hsp
    cases sMid with
    | mk msp mmsgs =>
      cases s with
      | mk sp msgs =>
        simp only at hm' hsp'
        subst hsp'
        simp only [Session.restore, Session.checkpoint, hm']
        simp [List.take_left]
  simp only [runToolBatch, h]
  rw [hrest]

/-- C1 witness: a batch whose single call names an unregistered tool fails
with a `ConfigError` and hands back the unchanged pre-batch session. -/
theorem runToolBatch_rollback_on_error_witness :
    runToolBatch wToolset "txt" [⟨"c1", "missing", ""⟩] none wSession =
      Except.error
        (ChatError.configError
          "Tool \"missing\" is not registered but was requested by the model",
         wSession) :=
  runToolBatch_rollback_on_error wToolset "txt" [⟨"c1", "missing", ""⟩] none wSession _ _ rfl

/-- C2: a fully-successful batch appends the assistant message and then
exactly one tool-result message per requested call, in request order, each
tool message carrying the `tool_call_id` of the request it answers. -/
theorem runToolBatch_success_appends_in_order (ts : List ToolDef) (finalText : String)
    (toolCalls : List ToolCallReq) (meta : Option String) (s s2 : Session)
    (h : runToolBatch ts finalText toolCalls meta s = Except.ok s2) :
    ∃ results, results.length = toolCalls.length ∧
      s2.messages = s.messages ++
        Msg.assistant finalText toolCalls meta ::
          (toolCalls.zip results).map (fun p => Msg.tool p.1.id p.2) := by
  simp only [runToolBatch] at h
  cases hd : dispatchCalls ts toolCalls (s.addAssistant finalText toolCalls meta) with
  | error p =>
    obtain ⟨e, sErr⟩ := p
    rw [hd] at h
    exact Except.noConfusion h
  | ok sOk =>
    rw [hd] at h
    injection h with h
    subst h
    obtain ⟨results, hlen, hm, _⟩ := dispatchCalls_ok_shape ts toolCalls _ sOk hd
    refine ⟨results, hlen, ?_⟩
    simpa [Session.addAssistant] using hm

/-- C2 witness: a two-call batch against the trivial toolset appends the
assistant message and the two tool results in order. -/
theorem runToolBatch_success_appends_in_order_witness :
    ∃ results : List String,
      results.length = ([⟨"c1", "t", ""⟩, ⟨"c2", "t", "\x7b\x7d"⟩] : List ToolCallReq).length ∧
      (⟨none,
        [Msg.user "hi",
         Msg.assistant "txt" [⟨"c1", "t", ""⟩, ⟨"c2", "t", "\x7b\x7d"⟩] none,
         Msg.tool "c1" "done", Msg.tool "c2" "done"]⟩ : Session).messages =
        (⟨none, [Msg.user "hi"]⟩ : Session).messages ++
          Msg.assistant "txt" [⟨"c1", "t", ""⟩, ⟨"c2", "t", "\x7b\x7d"⟩] none ::
            (([⟨"c1", "t", ""⟩, ⟨"c2", "t", "\x7b\x7d"⟩] : List ToolCallReq).zip results).map
              (fun p => Msg.tool p.1.id p.2) :=
  runToolBatch_success_appends_in_order wToolset "txt"
    [⟨"c1", "t", ""⟩, ⟨"c2", "t", "\x7b\x7d"⟩] none ⟨none, [Msg.user "hi"]⟩ _ rfl

/-- If every round requests tool calls and every batch succeeds, the loop
runs every remaining iteration, makes one provider call per iteration, and
ends with the loop-cap error. -/
theorem chatFrom_exhausts_aux (provider : Nat → ProviderResult) (ts : List ToolDef) (M : Nat)
    (hne : ∀ n, (provider n).toolCalls ≠ [])
    (hok : ∀ n s, ∃ s', runToolBatch ts (jsTrim (provider n).content) (provider n).toolCalls
      (reasoningMeta (provider n).reasoning) s = Except.ok s') :
    ∀ (k i : Nat) (s : Session), M - i = k →
      (chatFrom provider ts M i s).result = Except.error ChatError.tooManyToolCalls ∧
      (chatFrom provider ts M i s).providerCalls = M - i := by
  intro k
  induction k with
  | zero =>
    intro i s hk
    have hge : ¬ i < M := by omega
    rw [chatFrom]
    simp [hge, hk]
  | succ k ih =>
    intro i s hk
    have hlt : i < M := by omega
    obtain ⟨s', hs'⟩ := hok i s
    have hlen : 0 < (provider i).toolCalls.length := List.length_pos.mpr (hne i)
    have hrec := ih (i + 1) s' (by omega)
    rw [chatFrom]
    simp only [dif_pos hlt, if_pos hlen, hs']
    refine ⟨hrec.1, ?_⟩
    simp only [hrec.2]
    omega

/-- C3: with the iteration cap `maxToolPasses` (`options.maxToolPasses ?? 60`),
if every provider round returns at least one tool call and every tool batch
succeeds, `chat` never returns normally: it makes exactly the cap's number of
provider calls and then throws the dedicated loop-cap error (`'Too many
consecutive tool calls. Aborting.'`), a constructor distinct from the
config/parse/tool errors. -/
theorem chat_exhausts_at_cap (provider : Nat → ProviderResult) (ts : List ToolDef)
    (mtp : Option Nat) (s0 : Session)
    (hne : ∀ n, (provider n).toolCalls ≠ [])
    (hok : ∀ n s, ∃ s', runToolBatch ts (jsTrim (provider n).content) (provider n).toolCalls
      (reasoningMeta (provider n).reasoning) s = Except.ok s') :
    (chat provider ts mtp s0).result = Except.error ChatError.tooManyToolCalls ∧
    (chat provider ts mtp s0).providerCalls = mtp.getD 60 := by
  have h := chatFrom_exhausts_aux provider ts (mtp.getD 60) hne hok (mtp.getD 60) 0 s0 (by omega)
  simpa [chat] using h

/-- C3 witness: with a cap of 2, a provider that always requests the trivial
tool makes exactly 2 provider calls and then fails with the loop-cap error. -/
theorem chat_exhausts_at_cap_witness :
    (chat wProvider wToolset (some 2) ⟨none, []⟩).result =
      Except.error ChatError.tooManyToolCalls ∧
    (chat wProvider wToolset (some 2) ⟨none, []⟩).providerCalls = 2 :=
  chat_exhausts_at_cap wProvider wToolset (some 2) ⟨none, []⟩
    (fun _ => List.cons_ne_nil _ _) (fun _ s => ⟨_, rfl⟩)

/-- The scan loop is its per-character output followed by the end-of-input
closer determined by the final state. -/
theorem repairLoop_decompose :
    ∀ (cs : List Char) (st : RState),
      repairLoop cs st = repairBody cs st ++ repairTrailer (repairFinalState cs st) := by
  intro cs
  induction cs with
  | nil =>
    intro st
    simp [repairLoop, repairBody, repairFinalState, repairTrailer]
  | cons c rest ih =>
    intro st
    simp only [repairLoop, repairBody, repairFinalState]
    split_ifs <;> simp [ih, List.append_assoc]

/-- C5: `repairJsonString` is a total function on strings (it is a plain Lean
function, defined for every input including the empty string and inputs with
unbalanced quotes, brackets, or a trailing open escape), and at end-of-input
the output is always the scanned body followed by the defensive closer: a
completed `\\` for a trailing open escape and a closing quote for a
still-open string.  The two concrete conjuncts exercise the closer. -/
theorem repairJsonString_total_and_closes :
    (∀ input : String,
      repairJsonString input =
        String.mk (repairBody input.data initRState ++
          repairTrailer (repairFinalState input.data initRState))) ∧
    repairJsonString "\"abc" = "\"abc\"" ∧
    repairJsonString "\"abc\\" = "\"abc\\\\\"" := by
  refine ⟨?_, rfl, rfl⟩
  intro input
  by_cases h : input = ""
  · subst h; rfl
  · simp [repairJsonString, h, repairLoop_decompose]

/-- Unpacked properties of a string character that needs no escaping. -/
theorem safeStrChar_spec (c : Char) (h : SafeStrChar c = true) :
    c ≠ '"' ∧ c ≠ '\\' ∧ c ≠ '\n' ∧ c ≠ '\r' ∧ ¬ c.toNat ≤ 0x1f := by
  simp only [SafeStrChar, Bool.and_eq_true, decide_eq_true_eq] at h
  obtain ⟨⟨h1, h2⟩, h3⟩ := h
  refine ⟨h1, h2, ?_, ?_, by omega⟩
  · rintro rfl; exact absurd h3 (by decide)
  · rintro rfl; exact absurd h3 (by decide)

/-- The scan copies safe string content verbatim while inside a string. -/
theorem repairLoop_string_pass :
    ∀ (str : List Char), str.all SafeStrChar = true →
      ∀ (rest : List Char) (k : Bool) (S : List RFrame),
        repairLoop (str ++ rest) ⟨true, false, k, S⟩ =
          str ++ repairLoop rest ⟨true, false, k, S⟩ := by
  intro str
  induction str with
  | nil => intro _ rest k S; simp
  | cons c cs ih =>
    intro hall rest k S
    simp only [List.all_cons, Bool.and_eq_true] at hall
    obtain ⟨hc, hcs⟩ := hall
    obtain ⟨h1, h2, h3, h4, h5⟩ := safeStrChar_spec c hc
    simp only [List.cons_append, repairLoop]
    simp [h1, h2, h3, h4, h5, ih hcs]

/-- The scan copies structurally inert characters verbatim outside strings,
without changing the scanner state. -/
theorem repairLoop_plain_pass :
    ∀ (lit : List Char), lit.all PlainChar = true →
      ∀ (rest : List Char) (sk : Bool) (S : List RFrame),
        repairLoop (lit ++ rest) ⟨false, false, sk, S⟩ =
          lit ++ repairLoop rest ⟨false, false, sk, S⟩ := by
  intro lit
  induction lit with
  | nil => intro _ rest sk S; simp
  | cons c cs ih =>
    intro hall rest sk S
    simp only [List.all_cons, Bool.and_eq_true] at hall
    obtain ⟨hc, hcs⟩ := hall
    simp only [PlainChar, Bool.and_eq_true, decide_eq_true_eq] at hc
    obtain ⟨⟨⟨⟨⟨⟨h1, h2⟩, h3⟩, h4⟩, h5⟩, h6⟩, h7⟩ := hc
    simp only [List.cons_append, repairLoop]
    simp [h1, h2, h3, h4, h5, h6, h7, ih hcs]

/-- Processing an object key: opening quote, safe key characters, closing
quote (accepted because a key is expected), then the colon; the top frame
ends up no longer expecting a key. -/
theorem repairLoop_key_pass (k : List Char) (hk : k.all SafeStrChar = true)
    (S : List RFrame) (cs : List Char) :
    repairLoop ('"' :: (k ++ '"' :: ':' :: cs)) ⟨false, false, false, RFrame.obj true :: S⟩ =
      '"' :: (k ++ '"' :: ':' ::
        repairLoop cs ⟨false, false, false, RFrame.obj false :: S⟩) := by
  simp only [repairLoop]
  norm_num [isExpectingKey]
  rw [repairLoop_string_pass k hk]
  simp [repairLoop, updateObjectKeyState]

/-- A digit is not scanner whitespace. -/
theorem isDigit_not_ws (c : Char) (h : isDigit c = true) : isWhitespace c = false := by
  simp only [isDigit, Bool.and_eq_true, decide_eq_true_eq] at h
  simp only [isWhitespace, Bool.or_eq_false_iff, decide_eq_false_iff_not]
  refine ⟨⟨⟨?_, ?_⟩, ?_⟩, ?_⟩ <;> rintro rfl <;> exact absurd h (by decide)

/-- A value beginning is never whitespace and always passes the
array-continuation token test of `looksLikeValueTerminator`. -/
theorem vHead_token (c : Char)
    (h : c = '"' ∨ c = '\x7b' ∨ c = '[' ∨ LitHeadChar c = true) :
    isWhitespace c = false ∧
    (c = '"' || c = '\x7b' || c = '[' || c = '\x7d' || c = ']' ||
      c = '-' || c = 't' || c = 'f' || c = 'n' || isDigit c) = true := by
  rcases h with rfl | rfl | rfl | hl
  · exact ⟨by decide, by decide⟩
  · exact ⟨by decide, by decide⟩
  · exact ⟨by decide, by decide⟩
  · simp only [LitHeadChar, Bool.or_eq_true, decide_eq_true_eq] at hl
    rcases hl with (((rfl | rfl) | rfl) | rfl) | hd
    · exact ⟨by decide, by decide⟩
    · exact ⟨by decide, by decide⟩
    · exact ⟨by decide, by decide⟩
    · exact ⟨by decide, by decide⟩
    · exact ⟨isDigit_not_ws c hd, by simp [hd]⟩

/-- A value's text starts with a quote, an opening brace or bracket, or a
literal head character. -/
theorem gram_true_head {S : List RFrame} {cs : List Char} (h : Gram true S cs) :
    ∃ c cs', cs = c :: cs' ∧
      (c = '"' ∨ c = '\x7b' ∨ c = '[' ∨ LitHeadChar c = true) := by
  cases h with
  | vLit hlit htail =>
    rename_i lit cs0
    cases lit with
    | nil => exact absurd hlit (by simp [litTokenShaped])
    | cons c rest =>
      simp only [litTokenShaped, Bool.and_eq_true] at hlit
      exact ⟨c, rest ++ cs0, by simp, Or.inr (Or.inr (Or.inr hlit.1.1))⟩
  | vStr hstr htail => exact ⟨'"', _, rfl, Or.inl rfl⟩
  | vArrNil htail => exact ⟨'[', _, rfl, Or.inr (Or.inr (Or.inl rfl))⟩
  | vArrCons htail => exact ⟨'[', _, rfl, Or.inr (Or.inr (Or.inl rfl))⟩
  | vObjNil htail => exact ⟨'\x7b', _, rfl, Or.inr (Or.inl rfl)⟩
  | vObjFirst hk htail => exact ⟨'\x7b', _, rfl, Or.inr (Or.inl rfl)⟩

/-- A continuation is empty or starts with a comma or a closing bracket or
brace. -/
theorem gram_false_head {S : List RFrame} {cs : List Char} (h : Gram false S cs) :
    cs = [] ∨ ∃ c cs', cs = c :: cs' ∧ (c = ',' ∨ c = ']' ∨ c = '\x7d') := by
  cases h with
  | tNil => exact Or.inl rfl
  | tArrComma htail => exact Or.inr ⟨',', _, rfl, Or.inl rfl⟩
  | tArrClose htail => exact Or.inr ⟨']', _, rfl, Or.inr (Or.inl rfl)⟩
  | tObjComma hk htail => exact Or.inr ⟨',', _, rfl, Or.inl rfl⟩
  | tObjClose htail => exact Or.inr ⟨'\x7d', _, rfl, Or.inr (Or.inr rfl)⟩

/-- The first non-whitespace character after a continuation boundary. -/
theorem gram_false_follow {S : List RFrame} {cs : List Char} (h : Gram false S cs) :
    findNextNonWhitespace cs = none ∨
    ∃ c, findNextNonWhitespace cs = some c ∧ (c = ',' ∨ c = ']' ∨ c = '\x7d') := by
  rcases gram_false_head h with rfl | ⟨c, cs', rfl, hc⟩
  · exact Or.inl rfl
  · right
    refine ⟨c, ?_, hc⟩
    rcases hc with rfl | rfl | rfl <;> rfl

/-- First non-whitespace of a suffix starting with a non-whitespace
character. -/
theorem findNext_cons_not_ws {c : Char} {cs : List Char} (h : isWhitespace c = false) :
    findNextNonWhitespace (c :: cs) = some c := by
  simp [findNextNonWhitespace, h]

/-- After a value terminated by a quote, the legal canonical continuation
satisfies the quote-termination heuristic. -/
theorem lvt_of_gram_false {S : List RFrame} {cs : List Char} (h : Gram false S cs) :
    looksLikeValueTerminator cs (containerTypeOf S) = true := by
  cases h with
  | tNil => rfl
  | tArrComma htail =>
    obtain ⟨c, cs', rfl, hc⟩ := gram_true_head htail
    obtain ⟨hws, htok⟩ := vHead_token c hc
    have hdw : List.dropWhile isWhitespace (',' :: c :: cs') = ',' :: c :: cs' := by
      rw [List.dropWhile_cons]
      simp [isWhitespace]
    simp only [looksLikeValueTerminator, hdw, findNext_cons_not_ws hws,
      containerTypeOf, RFrame.ctype]
    simpa using htok
  | tArrClose htail =>
    have hdw : ∀ l : List Char, List.dropWhile isWhitespace (']' :: l) = ']' :: l := by
      intro l
      rw [List.dropWhile_cons]
      simp [isWhitespace]
    rcases gram_false_follow htail with hnone | ⟨c, hsome, hc⟩
    · simp [looksLikeValueTerminator, hdw, hnone]
    · rcases hc with rfl | rfl | rfl <;> simp [looksLikeValueTerminator, hdw, hsome]
  | tObjComma hk htail =>
    have hdw : ∀ l : List Char, List.dropWhile isWhitespace (',' :: l) = ',' :: l := by
      intro l
      rw [List.dropWhile_cons]
      simp [isWhitespace]
    have hfn : ∀ l : List Char, findNextNonWhitespace ('"' :: l) = some '"' :=
      fun l => findNext_cons_not_ws (by decide)
    simp [looksLikeValueTerminator, hdw, hfn, containerTypeOf, RFrame.ctype]
  | tObjClose htail =>
    have hdw : ∀ l : List Char, List.dropWhile isWhitespace ('\x7d' :: l) = '\x7d' :: l := by
      intro l
      rw [List.dropWhile_cons]
      simp [isWhitespace]
    rcases gram_false_follow htail with hnone | ⟨c, hsome, hc⟩
    · simp [looksLikeValueTerminator, hdw, hnone]
    · rcases hc with rfl | rfl | rfl <;> simp [looksLikeValueTerminator, hdw, hsome]

/-- A reachable stack never expects a key. -/
theorem okStack_isExpectingKey {S : List RFrame} (h : OkStack S) :
    isExpectingKey S = false := by
  cases S with
  | nil => rfl
  | cons f rest => rcases h f (List.mem_cons_self f rest) with rfl | rfl <;> rfl

/-- Clearing the key flag is the identity on a reachable stack. -/
theorem okStack_update {S : List RFrame} (h : OkStack S) :
    updateObjectKeyState S false = S := by
  cases S with
  | nil => rfl
  | cons f rest => rcases h f (List.mem_cons_self f rest) with rfl | rfl <;> rfl

/-- Popping preserves reachability. -/
theorem okStack_tail {S : List RFrame} {f : RFrame} (h : OkStack (f :: S)) : OkStack S :=
  fun g hg => h g (List.mem_cons_of_mem f hg)

/-- Pushing an array frame preserves reachability. -/
theorem okStack_cons_arr {S : List RFrame} (h : OkStack S) : OkStack (RFrame.arr :: S) := by
  intro f hf
  rcases List.mem_cons.mp hf with rfl | hf'
  · exact Or.inl rfl
  · exact h f hf'

/-- Pushing a value-expecting object frame preserves reachability. -/
theorem okStack_cons_obj {S : List RFrame} (h : OkStack S) :
    OkStack (RFrame.obj false :: S) := by
  intro f hf
  rcases List.mem_cons.mp hf with rfl | hf'
  · exact Or.inr rfl
  · exact h f hf'

/-- A literal token consists of structurally inert characters. -/
theorem litTokenShaped_all_plain (lit : List Char) (h : litTokenShaped lit = true) :
    lit.all PlainChar = true := by
  cases lit with
  | nil => exact absurd h (by simp [litTokenShaped])
  | cons c rest =>
    simp only [litTokenShaped, Bool.and_eq_true] at h
    simp [List.all_cons, h.1.2, h.2]

/-- The repair scan is the identity on text generated by the canonical JSON
grammar, started at any reachable stack. -/
theorem gram_repairLoop_id {b : Bool} {S : List RFrame} {cs : List Char}
    (h : Gram b S cs) : OkStack S → repairLoop cs ⟨false, false, false, S⟩ = cs := by
  induction h with
  | tNil => intro _; rfl
  | tArrComma htail ih =>
    intro hok
    simp only [repairLoop]
    simp [updateObjectKeyState, ih hok]
  | tArrClose htail ih =>
    intro hok
    simp only [repairLoop]
    simp [ih (okStack_tail hok)]
  | tObjComma hk htail ih =>
    intro hok
    simp only [repairLoop]
    simp [updateObjectKeyState, isExpectingKey]
    rw [repairLoop_string_pass _ hk]
    simp only [repairLoop]
    simp [updateObjectKeyState, ih hok]
  | tObjClose htail ih =>
    intro hok
    simp only [repairLoop]
    simp [ih (okStack_tail hok)]
  | vLit hlit htail ih =>
    intro hok
    rw [repairLoop_plain_pass _ (litTokenShaped_all_plain _ hlit)]
    rw [ih hok]
  | vStr hstr htail ih =>
    intro hok
    simp only [repairLoop]
    simp only [okStack_isExpectingKey hok]
    rw [repairLoop_string_pass _ hstr]
    simp only [repairLoop]
    simp [lvt_of_gram_false htail, okStack_update hok, ih hok]
  | vArrNil htail ih =>
    intro hok
    simp only [repairLoop]
    simp [ih hok]
  | vArrCons htail ih =>
    intro hok
    simp only [repairLoop]
    simp [ih (okStack_cons_arr hok)]
  | vObjNil htail ih =>
    intro hok
    simp only [repairLoop]
    simp [ih hok]
  | vObjFirst hk htail ih =>
    intro hok
    simp only [repairLoop]
    simp [isExpectingKey]
    rw [repairLoop_string_pass _ hk]
    simp only [repairLoop]
    simp [updateObjectKeyState, ih (okStack_cons_obj hok)]

mutual

/-- The rendering of a safe value, followed by any legal continuation, is
generated by the grammar as a value. -/
theorem render_gram : ∀ (v : Json), safeJson v = true →
    ∀ (S : List RFrame) (rest : List Char), Gram false S rest →
      Gram true S (renderChars v ++ rest)
  | Json.null, _, S, rest, h =>
    @Gram.vLit S ['n', 'u', 'l', 'l'] rest (by decide) h
  | Json.bool true, _, S, rest, h =>
    @Gram.vLit S ['t', 'r', 'u', 'e'] rest (by decide) h
  | Json.bool false, _, S, rest, h =>
    @Gram.vLit S ['f', 'a', 'l', 's', 'e'] rest (by decide) h
  | Json.num lit, hv, S, rest, h => by
    have hl : litTokenShaped lit.data = true := by simpa [safeJson] using hv
    exact Gram.vLit hl h
  | Json.str s, hv, S, rest, h => by
    have hs : s.data.all SafeStrChar = true := by simpa [safeJson] using hv
    have hg := @Gram.vStr S s.data rest hs h
    simpa [renderChars, List.append_assoc] using hg
  | Json.arr [], _, S, rest, h =>
    Gram.vArrNil h
  | Json.arr (v :: vs), hv, S, rest, h => by
    have hv1 : safeJson v = true := by
      have := hv
      simp only [safeJson, safeList, Bool.and_eq_true] at this
      exact this.1
    have hv2 : safeList vs = true := by
      have := hv
      simp only [safeJson, safeList, Bool.and_eq_true] at this
      exact this.2
    have h1 := renderElemsTail_gram vs hv2 S rest h
    have h2 := render_gram v hv1 (RFrame.arr :: S) _ h1
    have h3 := Gram.vArrCons h2
    simpa [renderChars, List.append_assoc] using h3
  | Json.obj [], _, S, rest, h =>
    Gram.vObjNil h
  | Json.obj ((k, v) :: kvs), hv, S, rest, h => by
    have hvv := hv
    simp only [safeJson, safeMembers, Bool.and_eq_true] at hvv
    obtain ⟨⟨hk, hv1⟩, hv2⟩ := hvv
    have h1 := renderMembersTail_gram kvs hv2 S rest h
    have h2 := render_gram v hv1 (RFrame.obj false :: S) _ h1
    have h3 := Gram.vObjFirst (k := k.data) hk h2
    simpa [renderChars, List.append_assoc] using h3

/-- The rendering of the later elements of a safe array, followed by the
closing bracket and any legal continuation, is a legal array continuation. -/
theorem renderElemsTail_gram : ∀ (vs : List Json), safeList vs = true →
    ∀ (S : List RFrame) (rest : List Char), Gram false S rest →
      Gram false (RFrame.arr :: S) (renderElemsTail vs ++ (']' :: rest))
  | [], _, S, rest, h => by
    simpa [renderElemsTail] using Gram.tArrClose h
  | v :: vs, hv, S, rest, h => by
    have hvv := hv
    simp only [safeList, Bool.and_eq_true] at hvv
    obtain ⟨hv1, hv2⟩ := hvv
    have h1 := renderElemsTail_gram vs hv2 S rest h
    have h2 := render_gram v hv1 (RFrame.arr :: S) _ h1
    have h3 := Gram.tArrComma h2
    simpa [renderElemsTail, List.append_assoc] using h3

/-- The rendering of the later members of a safe object, followed by the
closing brace and any legal continuation, is a legal object continuation. -/
theorem renderMembersTail_gram : ∀ (kvs : List (String × Json)), safeMembers kvs = true →
    ∀ (S : List RFrame) (rest : List Char), Gram false S rest →
      Gram false (RFrame.obj false :: S) (renderMembersTail kvs ++ ('\x7d' :: rest))
  | [], _, S, rest, h => by
    simpa [renderMembersTail] using Gram.tObjClose h
  | (k, v) :: kvs, hv, S, rest, h => by
    have hvv := hv
    simp only [safeMembers, Bool.and_eq_true] at hvv
    obtain ⟨⟨hk, hv1⟩, hv2⟩ := hvv
    have h1 := renderMembersTail_gram kvs hv2 S rest h
    have h2 := render_gram v hv1 (RFrame.obj false :: S) _ h1
    have h3 := Gram.tObjComma hk h2
    simpa [renderMembersTail, List.append_assoc] using h3

end

/-- C4: `repairJsonString` is the identity on already-valid JSON: the
canonical (whitespace-free) rendering of any JSON value whose strings and
keys contain no quotes, backslashes, or control characters needing escaping
is returned unchanged. -/
theorem repair_identity_on_canonical_json (v : Json) (hv : safeJson v = true) :
    repairJsonString (render v) = render v := by
  simp only [render, repairJsonString]
  split
  · rfl
  · have hg : Gram true [] (renderChars v ++ []) := render_gram v hv [] [] Gram.tNil
    rw [List.append_nil] at hg
    have hid := gram_repairLoop_id hg (by intro f hf; cases hf)
    exact congrArg String.mk hid

/-- C4 witness: a concrete safe object renders and repairs to itself. -/
theorem repair_identity_on_canonical_json_witness :
    safeJson wJson = true ∧ repairJsonString (render wJson) = render wJson :=
  ⟨rfl, repair_identity_on_canonical_json wJson rfl⟩

end DSCli
